import Mathlib

set_option maxRecDepth 100000

/-!
Verification of the cfx-account transaction signing and recovery core.

The development shallowly embeds `cfx_account/account.py` (the `Account`
facade: `from_key`, `sign_transaction`, `recover_transaction`) and
`cfx_account/_utils/account_ffi.py` (the `Pffi` lattice-primitive wrapper).
The helper modules the facade calls (`cfx_account._utils.signing`,
`cfx_account._utils.transactions`, `cfx_account.signers.local`) are part of
the package but are not in the provided sources; they are modelled from the
specification, with the classical signature engine instantiated by a full
executable implementation of deterministic secp256k1 ECDSA (RFC 6979 style
nonce over HMAC-SHA-256), the RLP canonical encoding, and Keccak-256, so
that the known-vector scenario can be checked by computation.

Bytes are `List Nat`, each element a byte value below 256; machine words
are `Nat` reduced modulo `2^32` or `2^64` explicitly.
-/

/-! ### Big-endian byte strings -/

/-- Minimal big-endian byte string of a natural number, with explicit fuel
bounding the byte length (structural recursion so the kernel can evaluate). -/
def beBytesAux : Nat → Nat → List Nat
  | 0, _ => []
  | fuel+1, n => if n = 0 then [] else beBytesAux fuel (n / 256) ++ [n % 256]

/-- Minimal big-endian byte string of a natural number below `2^512`.
The integer zero encodes as the empty byte string. -/
def beBytes (n : Nat) : List Nat := beBytesAux 64 n

/-- Interpret a byte string as a big-endian natural number. -/
def beToNat (bs : List Nat) : Nat := bs.foldl (fun acc b => acc * 256 + b) 0

/-- Big-endian byte string of `n`, left-padded with zero bytes to `len` bytes. -/
def beBytesPad (len n : Nat) : List Nat :=
  let b := beBytes n
  List.replicate (len - b.length) 0 ++ b

/-- Split a byte string into chunks of `size` bytes (fuel-structural). -/
def chunksAux (size : Nat) : Nat → List Nat → List (List Nat)
  | 0, _ => []
  | _, [] => []
  | fuel+1, l => l.take size :: chunksAux size fuel (l.drop size)

/-- Split a byte string into chunks of `size` bytes. -/
def chunks (size : Nat) (l : List Nat) : List (List Nat) :=
  chunksAux size l.length l

/-! ### SHA-256 (used by the deterministic-nonce derivation) -/

/-- Truncate to a 32-bit word. -/
def w32 (x : Nat) : Nat := x % 4294967296

/-- Right-rotation of a 32-bit word. -/
def rotr32 (n x : Nat) : Nat := w32 ((x >>> n) ||| (x <<< (32 - n)))

/-- Big-endian byte string of a constant, left-padded with zeros to `len`
bytes (fuel `len`, so wide constants unpack fully). -/
def packedBytes (len n : Nat) : List Nat :=
  let b := beBytesAux len n
  List.replicate (len - b.length) 0 ++ b

/-- Group bytes into big-endian 32-bit words. -/
def bytesToW32 : List Nat → List Nat
  | a :: b :: c :: d :: rest => (((a * 256 + b) * 256 + c) * 256 + d) :: bytesToW32 rest
  | _ => []

/-- Group bytes into big-endian 64-bit words. -/
def bytesToW64 : List Nat → List Nat
  | a :: b :: c :: d :: e :: f :: g :: h :: rest =>
    (((((((a * 256 + b) * 256 + c) * 256 + d) * 256 + e) * 256 + f) * 256 + g) * 256 + h) ::
      bytesToW64 rest
  | _ => []

/-- SHA-256 round constants, packed big-endian (FIPS 180-4, the fractional
parts of the cube roots of the first 64 primes). -/
def shaK : List Nat :=
  bytesToW32 (packedBytes 256 0x428a2f9871374491b5c0fbcfe9b5dba53956c25b59f111f1923f82a4ab1c5ed5d807aa9812835b01243185be550c7dc372be5d7480deb1fe9bdc06a7c19bf174e49b69c1efbe47860fc19dc6240ca1cc2de92c6f4a7484aa5cb0a9dc76f988da983e5152a831c66db00327c8bf597fc7c6e00bf3d5a7914706ca63511429296727b70a852e1b21384d2c6dfc53380d13650a7354766a0abb81c2c92e92722c85a2bfe8a1a81a664bc24b8b70c76c51a3d192e819d6990624f40e3585106aa07019a4c1161e376c082748774c34b0bcb5391c0cb34ed8aa4a5b9cca4f682e6ff3748f82ee78a5636f84c878148cc7020890befffaa4506cebbef9a3f7c67178f2)

/-- SHA-256 initial state, packed big-endian. -/
def shaH0 : List Nat :=
  bytesToW32 (packedBytes 32 0x6a09e667bb67ae853c6ef372a54ff53a510e527f9b05688c1f83d9ab5be0cd19)

/-- Emit a 32-bit word as four big-endian bytes. -/
def w32ToBytes (x : Nat) : List Nat := beBytesPad 4 (w32 x)

/-- Extend the 16-word schedule to 64 words; the word list is kept in
reverse (newest first) so every lookup is near the head. -/
def shaExtendAux : Nat → List Nat → List Nat
  | 0, w => w
  | fuel+1, w =>
    let x2 := w.getD 1 0
    let x7 := w.getD 6 0
    let x15 := w.getD 14 0
    let x16 := w.getD 15 0
    let s0 := rotr32 7 x15 ^^^ rotr32 18 x15 ^^^ (x15 >>> 3)
    let s1 := rotr32 17 x2 ^^^ rotr32 19 x2 ^^^ (x2 >>> 10)
    shaExtendAux fuel (w32 (x16 + s0 + x7 + s1) :: w)

/-- One SHA-256 round on the eight-word working state. -/
def shaRound (st : List Nat) (wk : Nat × Nat) : List Nat :=
  match st with
  | [a, b, c, d, e, f, g, h] =>
    let S1 := rotr32 6 e ^^^ rotr32 11 e ^^^ rotr32 25 e
    let ch := (e &&& f) ^^^ ((4294967295 - e) &&& g)
    let t1 := w32 (h + S1 + ch + wk.2 + wk.1)
    let S0 := rotr32 2 a ^^^ rotr32 13 a ^^^ rotr32 22 a
    let mj := (a &&& b) ^^^ (a &&& c) ^^^ (b &&& c)
    let t2 := w32 (S0 + mj)
    [w32 (t1 + t2), a, b, c, w32 (d + t1), e, f, g]
  | other => other

/-- SHA-256 compression of one 64-byte block into the chaining state. -/
def shaCompress (st : List Nat) (block : List Nat) : List Nat :=
  let w := (shaExtendAux 48 (bytesToW32 block).reverse).reverse
  let out := (w.zip shaK).foldl shaRound st
  List.zipWith (fun x y => w32 (x + y)) st out

/-- SHA-256 padding: append `0x80`, zeros, and the 64-bit bit length. -/
def shaPad (m : List Nat) : List Nat :=
  let l := m.length
  let zcount := (119 - l % 64) % 64
  m ++ [0x80] ++ List.replicate zcount 0 ++ beBytesPad 8 (l * 8)

/-- SHA-256 digest of a byte string. -/
def sha256 (m : List Nat) : List Nat :=
  ((chunks 64 (shaPad m)).foldl shaCompress shaH0).flatMap w32ToBytes

/-! ### HMAC-SHA-256 and the deterministic nonce -/

/-- HMAC-SHA-256 with a key of at most 64 bytes. -/
def hmacSha256 (key msg : List Nat) : List Nat :=
  let k0 := key ++ List.replicate (64 - key.length) 0
  let ipad := k0.map (fun b => b ^^^ 0x36)
  let opad := k0.map (fun b => b ^^^ 0x5c)
  sha256 (opad ++ sha256 (ipad ++ msg))

/-- Modelled from the spec: the classical variant's "fixed per-message nonce
derived deterministically from the key and digest, per a standard
deterministic-nonce scheme" (RFC 6979 over HMAC-SHA-256, as in the
package's signature engine, which is not among the provided sources). -/
def deterministicGenerateK (msgHash keyBytes : List Nat) : Nat :=
  let v0 := List.replicate 32 1
  let k0 := List.replicate 32 0
  let k1 := hmacSha256 k0 (v0 ++ [0] ++ keyBytes ++ msgHash)
  let v1 := hmacSha256 k1 v0
  let k2 := hmacSha256 k1 (v1 ++ [1] ++ keyBytes ++ msgHash)
  let v2 := hmacSha256 k2 v1
  beToNat (hmacSha256 k2 v2)

/-! ### Keccak-256 (the cryptographic digest of the facade) -/

/-- Truncate to a 64-bit word. -/
def w64 (x : Nat) : Nat := x % 18446744073709551616

/-- Left-rotation of a 64-bit word. -/
def rotl64 (n x : Nat) : Nat := w64 ((x <<< (n % 64)) ||| (x >>> (64 - n % 64)))

/-- Keccak-f[1600] round constants, packed big-endian. -/
def keccakRC : List Nat :=
  bytesToW64 (packedBytes 192 0x10000000000008082800000000000808a8000000080008000000000000000808b000000008000000180000000800080818000000000008009000000000000008a00000000000000880000000080008009000000008000000a000000008000808b800000000000008b8000000000008089800000000000800380000000000080028000000000000080000000000000800a800000008000000a8000000080008081800000000000808000000000800000018000000080008008)

/-- Rho rotation offsets, indexed by `x + 5*y`, packed as one byte each. -/
def keccakRho : List Nat :=
  packedBytes 25 0x13e1c1b242c063714030a2b1927292d0f150812023d380e

/-- Lane lookup in a 25-lane state. -/
def lane (st : List Nat) (x y : Nat) : Nat := st.getD (x % 5 + 5 * (y % 5)) 0

/-- The theta step. -/
def keccakTheta (st : List Nat) : List Nat :=
  let c := (List.range 5).map (fun x =>
    lane st x 0 ^^^ lane st x 1 ^^^ lane st x 2 ^^^ lane st x 3 ^^^ lane st x 4)
  let d := (List.range 5).map (fun x =>
    c.getD ((x + 4) % 5) 0 ^^^ rotl64 1 (c.getD ((x + 1) % 5) 0))
  (List.range 25).map (fun i => st.getD i 0 ^^^ d.getD (i % 5) 0)

/-- The combined rho and pi steps. -/
def keccakRhoPi (st : List Nat) : List Nat :=
  (List.range 25).map (fun i =>
    let x := i % 5
    let y := i / 5
    let sx := (x + 3 * y) % 5
    let sy := x
    rotl64 (keccakRho.getD (sx + 5 * sy) 0) (lane st sx sy))

/-- The chi step. -/
def keccakChi (st : List Nat) : List Nat :=
  (List.range 25).map (fun i =>
    let x := i % 5
    let y := i / 5
    lane st x y ^^^ ((18446744073709551615 - lane st (x + 1) y) &&& lane st (x + 2) y))

/-- One Keccak-f round. -/
def keccakRound (st : List Nat) (rc : Nat) : List Nat :=
  match keccakChi (keccakRhoPi (keccakTheta st)) with
  | a0 :: rest => (a0 ^^^ rc) :: rest
  | [] => []

/-- The full Keccak-f[1600] permutation (24 rounds). -/
def keccakF (st : List Nat) : List Nat := keccakRC.foldl keccakRound st

/-- Interpret bytes as little-endian 64-bit lanes. -/
def bytesToLanes : List Nat → List Nat
  | a :: b :: c :: d :: e :: f :: g :: h :: rest =>
    (a + 256 * (b + 256 * (c + 256 * (d + 256 * (e + 256 * (f + 256 * (g + 256 * h))))))) ::
      bytesToLanes rest
  | _ => []

/-- Emit a 64-bit lane as eight little-endian bytes. -/
def laneToBytes (x : Nat) : List Nat := (beBytesPad 8 (w64 x)).reverse

/-- Absorb one 136-byte block into the state. -/
def keccakAbsorb (st : List Nat) (block : List Nat) : List Nat :=
  let bl := bytesToLanes block ++ List.replicate 8 0
  keccakF ((List.range 25).map (fun i => st.getD i 0 ^^^ bl.getD i 0))

/-- Keccak padding for rate 136: domain byte `0x01`, final bit `0x80`. -/
def keccakPad (m : List Nat) : List Nat :=
  let r := m.length % 136
  if r = 135 then m ++ [0x81]
  else m ++ [0x01] ++ List.replicate (134 - r) 0 ++ [0x80]

/-- Keccak-256 digest of a byte string (the Ethereum/Conflux `keccak`). -/
def keccak (m : List Nat) : List Nat :=
  let st := (chunks 136 (keccakPad m)).foldl keccakAbsorb (List.replicate 25 0)
  ((st.take 4).map laneToBytes).flatten

/-! ### secp256k1 deterministic ECDSA (the classical recoverable variant)

Modelled from the spec: the signature engine's classical recoverable
variant (§4.2) — deterministic elliptic-curve signing over a digest with a
recovery id, and algebraic public-key recovery from `(digest, r, s,
recovery id)`. The engine code itself is not among the provided sources. -/

/-- The secp256k1 field modulus. -/
def secpP : Nat :=
  0xFFFFFFFFFFFFFFFFFFFFFFFFFFFFFFFFFFFFFFFFFFFFFFFFFFFFFFFEFFFFFC2F

/-- The secp256k1 group order. -/
def secpN : Nat :=
  0xFFFFFFFFFFFFFFFFFFFFFFFFFFFFFFFEBAAEDCE6AF48A03BBFD25E8CD0364141

/-- x-coordinate of the secp256k1 base point. -/
def secpGx : Nat :=
  0x79BE667EF9DCBBAC55A06295CE870B07029BFCDB2DCE28D959F2815B16F81798

/-- y-coordinate of the secp256k1 base point. -/
def secpGy : Nat :=
  0x483ADA7726A3C4655DA4FBFC0E1108A8FD17B448A68554199C47D08FFB10D4B8

/-- Modular exponentiation by repeated squaring (fuel bounds the exponent's
bit length; structural so the kernel can evaluate). -/
def powMod : Nat → Nat → Nat → Nat → Nat
  | 0, _, _, m => 1 % m
  | fuel+1, b, e, m =>
    if e = 0 then 1 % m
    else
      let h := powMod fuel (b * b % m) (e / 2) m
      if e % 2 = 1 then h * b % m else h

/-- Modular inverse modulo a prime, by Fermat's little theorem. -/
def invMod (a m : Nat) : Nat := powMod 256 (a % m) (m - 2) m

/-- Field multiplication modulo `secpP`. -/
def fmul (a b : Nat) : Nat := a * b % secpP

/-- Field subtraction modulo `secpP`. -/
def fsub (a b : Nat) : Nat := (a % secpP + (secpP - b % secpP)) % secpP

/-- Field addition modulo `secpP`. -/
def fadd (a b : Nat) : Nat := (a + b) % secpP

/-- Jacobian doubling; the point with `y = 0` acts as infinity, as in the
engine's reference arithmetic. -/
def jdouble (p : Nat × Nat × Nat) : Nat × Nat × Nat :=
  let (x, y, z) := p
  if y = 0 then (0, 0, 0)
  else
    let ysq := fmul y y
    let s := fmul 4 (fmul x ysq)
    let m := fmul 3 (fmul x x)
    let nx := fsub (fmul m m) (fmul 2 s)
    let ny := fsub (fmul m (fsub s nx)) (fmul 8 (fmul ysq ysq))
    let nz := fmul 2 (fmul y z)
    (nx, ny, nz)

/-- Jacobian addition. -/
def jadd (p q : Nat × Nat × Nat) : Nat × Nat × Nat :=
  if p.2.1 = 0 then q
  else if q.2.1 = 0 then p
  else
    let (x1, y1, z1) := p
    let (x2, y2, z2) := q
    let u1 := fmul x1 (fmul z2 z2)
    let u2 := fmul x2 (fmul z1 z1)
    let s1 := fmul y1 (fmul z2 (fmul z2 z2))
    let s2 := fmul y2 (fmul z1 (fmul z1 z1))
    if u1 = u2 then
      if s1 ≠ s2 then (0, 0, 1) else jdouble p
    else
      let h := fsub u2 u1
      let r := fsub s2 s1
      let h2 := fmul h h
      let h3 := fmul h h2
      let u1h2 := fmul u1 h2
      let nx := fsub (fmul r r) (fadd h3 (fmul 2 u1h2))
      let ny := fsub (fmul r (fsub u1h2 nx)) (fmul s1 h3)
      let nz := fmul h (fmul z1 z2)
      (nx, ny, nz)

/-- Jacobian scalar multiplication by double-and-add (fuel bounds the
scalar's bit length). -/
def jmulAux : Nat → Nat × Nat × Nat → Nat → Nat × Nat × Nat
  | 0, _, _ => (0, 0, 1)
  | fuel+1, p, n =>
    if p.2.1 = 0 ∨ n = 0 then (0, 0, 1)
    else if n = 1 then p
    else
      let h := jmulAux fuel p (n / 2)
      if n % 2 = 0 then jdouble h else jadd (jdouble h) p

/-- Scalar multiplication on secp256k1 (scalar reduced modulo the order). -/
def jmul (p : Nat × Nat × Nat) (n : Nat) : Nat × Nat × Nat :=
  jmulAux 256 p (n % secpN)

/-- Conversion from Jacobian to affine coordinates. -/
def fromJacobian (p : Nat × Nat × Nat) : Nat × Nat :=
  let (x, y, z) := p
  if z = 0 then (0, 0)
  else
    let zi := invMod z secpP
    (fmul x (fmul zi zi), fmul y (fmul zi (fmul zi zi)))

/-- Affine coordinates of `d` times the base point. -/
def basePointMul (d : Nat) : Nat × Nat :=
  fromJacobian (jmul (secpGx, secpGy, 1) d)

/-- Deterministic ECDSA signing over a 32-byte digest: returns
`(recovery id, r, s)` with `s` canonicalised to the lower half range. -/
def ecdsaRawSign (msgHash : List Nat) (d : Nat) : Nat × Nat × Nat :=
  let z := beToNat msgHash
  let k := deterministicGenerateK msgHash (beBytesPad 32 d)
  let (r, y) := basePointMul k
  let sRaw := invMod k secpN * (z + r * d) % secpN
  let lowS := 2 * sRaw < secpN
  let recid := (y % 2) ^^^ (if lowS then 0 else 1)
  let s := if lowS then sRaw else secpN - sRaw
  (recid, r, s)

/-- ECDSA public-key recovery from `(digest, recovery id, r, s)`:
reconstructs the affine public key, or `none` when `r` is not a valid curve
x-coordinate or a component is degenerate. -/
def ecdsaRawRecover (msgHash : List Nat) (sig : Nat × Nat × Nat) : Option (Nat × Nat) :=
  let (recid, r, s) := sig
  let x := r
  let alpha := (x * x * x + 7) % secpP
  let beta := powMod 256 alpha ((secpP + 1) / 4) secpP
  let y := if (27 + recid) % 2 ^^^ beta % 2 = 1 then beta else secpP - beta
  if (alpha + (secpP - fmul y y)) % secpP ≠ 0 ∨ r % secpN = 0 ∨ s % secpN = 0 then
    none
  else
    let z := beToNat msgHash
    let gz := jmul (secpGx, secpGy, 1) ((secpN - z % secpN) % secpN)
    let xy := jmul (x, y, 1) s
    let qr := jadd gz xy
    some (fromJacobian (jmul qr (invMod r secpN)))

/-- The 20-byte account identity of an affine public key: the last 20 bytes
of the Keccak-256 digest of the 64-byte uncompressed coordinates. -/
def pubToAddressBytes (q : Nat × Nat) : List Nat :=
  (keccak (beBytesPad 32 q.1 ++ beBytesPad 32 q.2)).drop 12

/-- The 20-byte account identity derived from a private scalar. -/
def privToAddressBytes (d : Nat) : List Nat :=
  pubToAddressBytes (basePointMul d)

/-! ### Canonical encoder (§4.1)

Modelled from the spec: the length-prefixed, type-tagged list encoding
(RLP) used both as signing payload and wire format; the package's encoder
module is not among the provided sources. Integers are encoded in minimal
big-endian form, zero as the empty byte string; an absent recipient
encodes as the empty byte string. -/

/-- Length prefix for a payload, under the given base tag (`0x80` for byte
strings, `0xc0` for lists). -/
def rlpHeader (base : Nat) (payload : List Nat) : List Nat :=
  if payload.length ≤ 55 then (base + payload.length) :: payload
  else
    let lb := beBytes payload.length
    ((base + 55 + lb.length) :: lb) ++ payload

/-- RLP encoding of a byte string. -/
def rlpBytes (b : List Nat) : List Nat :=
  if b.length = 1 ∧ b.getD 0 0 < 0x80 then b else rlpHeader 0x80 b

/-- RLP encoding of a natural number (minimal big-endian; zero is empty). -/
def rlpNat (n : Nat) : List Nat := rlpBytes (beBytes n)

/-- RLP list wrapper around already-encoded items. -/
def rlpList (payload : List Nat) : List Nat := rlpHeader 0xc0 payload

/-- The unsigned transaction: sequence number, gas price, gas limit,
recipient (empty for contract creation), value, payload data, and the
chain identifier included in the signed payload to prevent cross-network
replay. -/
structure Tx where
  nonce : Nat
  gasPrice : Nat
  gas : Nat
  toAddr : List Nat
  value : Nat
  data : List Nat
  chainId : Nat
deriving DecidableEq, Repr

/-- The six core fields of a transaction, each RLP-encoded, concatenated in
the fixed declared order. -/
def txCoreItems (t : Tx) : List Nat :=
  rlpNat t.nonce ++ rlpNat t.gasPrice ++ rlpNat t.gas ++ rlpBytes t.toAddr ++
    rlpNat t.value ++ rlpBytes t.data

/-- The unsigned signing payload: the core fields followed by
`(chainId, 0, 0)`, wrapped as an RLP list. -/
def signingBytes (t : Tx) : List Nat :=
  rlpList (txCoreItems t ++ rlpNat t.chainId ++ rlpNat 0 ++ rlpNat 0)

/-- The final wire bytes: the core fields followed by the three signature
components `(v, r, s)`, wrapped as an RLP list. -/
def signedBytes (t : Tx) (v r s : Nat) : List Nat :=
  rlpList (txCoreItems t ++ rlpNat v ++ rlpNat r ++ rlpNat s)

/-- The known-vector transaction from the facade's documented example. -/
def demoTx : Tx :=
  { nonce := 0
    gasPrice := 234567897654321
    gas := 2000000
    toAddr := [0xf0, 0x10, 0x9f, 0xc8, 0xdf, 0x28, 0x30, 0x27, 0xb6, 0x28,
           0x5c, 0xc8, 0x89, 0xf5, 0xaa, 0x62, 0x4e, 0xac, 0x1f, 0x55]
    value := 1000000000
    data := []
    chainId := 1 }

/-- The known-vector private key. -/
def demoKey : Nat :=
  0x4c0883a69102937d6231471b5dbb6204fe5129617082792ae468d01a3f362318

/-! ### Transaction codec (§4.3)

Modelled from the spec: decoding of the length-prefixed list encoding back
into structured fields plus signature components, validating framing,
canonical minimal-length integers, and exact field count; the package's
codec module (`cfx_account._utils.transactions`) is not among the provided
sources. -/

/-- Parse one RLP byte-string item, returning its payload and the remaining
input; rejects truncated input, non-canonical framing, and list tags. -/
def parseItem : List Nat → Option (List Nat × List Nat)
  | [] => none
  | b :: rest =>
    if b < 0x80 then some ([b], rest)
    else if b ≤ 0xb7 then
      let len := b - 0x80
      if rest.length < len then none
      else
        let payload := rest.take len
        if len = 1 ∧ payload.getD 0 0 < 0x80 then none
        else some (payload, rest.drop len)
    else if b ≤ 0xbf then
      let ll := b - 0xb7
      if rest.length < ll then none
      else
        let lenBytes := rest.take ll
        let len := beToNat lenBytes
        if lenBytes.getD 0 0 = 0 ∨ len ≤ 55 then none
        else if (rest.drop ll).length < len then none
        else some ((rest.drop ll).take len, (rest.drop ll).drop len)
    else none

/-- Parse one RLP scalar item as a canonical minimal big-endian integer
(leading zero bytes rejected). -/
def parseNatItem (input : List Nat) : Option (Nat × List Nat) :=
  match parseItem input with
  | none => none
  | some (p, rest) => if p.getD 0 1 = 0 then none else some (beToNat p, rest)

/-- Parse the outer RLP list header, returning the list payload; the input
must be consumed exactly. -/
def parseListPayload : List Nat → Option (List Nat)
  | [] => none
  | b :: rest =>
    if b < 0xc0 then none
    else if b ≤ 0xf7 then
      if rest.length = b - 0xc0 then some rest else none
    else
      let ll := b - 0xf7
      if rest.length < ll then none
      else
        let lenBytes := rest.take ll
        let len := beToNat lenBytes
        if lenBytes.getD 0 0 = 0 ∨ len ≤ 55 then none
        else if (rest.drop ll).length = len then some (rest.drop ll) else none

/-- The nine decoded fields of a fully serialized signed transaction. -/
structure DecodedTx where
  nonce : Nat
  gasPrice : Nat
  gas : Nat
  toAddr : List Nat
  value : Nat
  data : List Nat
  v : Nat
  r : Nat
  s : Nat
deriving DecidableEq, Repr

/-- Decode a fully serialized signed transaction into its nine fields. -/
def decodeSignedBytes (bs : List Nat) : Option DecodedTx :=
  match parseListPayload bs with
  | none => none
  | some payload =>
  match parseNatItem payload with
  | none => none
  | some (nonce, r1) =>
  match parseNatItem r1 with
  | none => none
  | some (gasPrice, r2) =>
  match parseNatItem r2 with
  | none => none
  | some (gas, r3) =>
  match parseItem r3 with
  | none => none
  | some (toA, r4) =>
  match parseNatItem r4 with
  | none => none
  | some (value, r5) =>
  match parseItem r5 with
  | none => none
  | some (data, r6) =>
  match parseNatItem r6 with
  | none => none
  | some (v, r7) =>
  match parseNatItem r7 with
  | none => none
  | some (sigR, r8) =>
  match parseNatItem r8 with
  | none => none
  | some (sigS, r9) =>
  if r9 = [] then
    some ⟨nonce, gasPrice, gas, toA, value, data, v, sigR, sigS⟩
  else none

/-- A well-formed unsigned transaction per the canonical encoder's field
range constraints (§4.1): 256-bit scalar fields, a 20-byte or absent
recipient, bounded payload data, and a 32-bit chain identifier. -/
def TxValid (t : Tx) : Prop :=
  t.nonce < 2 ^ 256 ∧ t.gasPrice < 2 ^ 256 ∧ t.gas < 2 ^ 256 ∧
  (t.toAddr = [] ∨ t.toAddr.length = 20) ∧ (∀ b ∈ t.toAddr, b < 256) ∧
  t.value < 2 ^ 256 ∧ t.data.length < 2 ^ 32 ∧ (∀ b ∈ t.data, b < 256) ∧
  0 < t.chainId ∧ t.chainId < 2 ^ 32

instance (t : Tx) : Decidable (TxValid t) :=
  inferInstanceAs (Decidable (t.nonce < 2 ^ 256 ∧ t.gasPrice < 2 ^ 256 ∧ t.gas < 2 ^ 256 ∧
    (t.toAddr = [] ∨ t.toAddr.length = 20) ∧ (∀ b ∈ t.toAddr, b < 256) ∧
    t.value < 2 ^ 256 ∧ t.data.length < 2 ^ 32 ∧ (∀ b ∈ t.data, b < 256) ∧
    0 < t.chainId ∧ t.chainId < 2 ^ 32))

/-! ### The Account facade (`cfx_account/account.py`) -/

/-- Error taxonomy of the facade and its collaborators (§7). -/
inductive Err where
  | typeError
  | senderMismatch
  | invalidNetworkId
  | invalidEncoding
  | unsupportedType
  | signatureRejected
deriving DecidableEq, Repr

/-- The result of signing (`eth_account.datastructures.SignedTransaction`):
final encoded bytes, transaction hash, and signature components, by value. -/
structure SignedTransaction where
  rawTransaction : List Nat
  hash : List Nat
  r : Nat
  s : Nat
  v : Nat
deriving DecidableEq, Repr

/-- Modelled from the spec: a `LocalAccount`
(`cfx_account.signers.local`, not among the provided sources) holds the
private signing key and an optional network identifier. -/
structure LocalAccount where
  key : Nat
  networkId : Option Nat
deriving DecidableEq, Repr

/-- Conversion of a 20-byte account identity to the chain-native hex form
(`cfx_address.eth_eoa_address_to_cfx_hex`, an external collaborator): the
leading nibble is forced to `1`. -/
def ethEoaToCfxHexAddr : List Nat → List Nat
  | [] => []
  | b :: rest => (0x10 + b % 16) :: rest

/-- The account's hex address, derived from the key alone. -/
def LocalAccount.hexAddress (a : LocalAccount) : List Nat :=
  ethEoaToCfxHexAddr (privToAddressBytes a.key)

/-- Modelled from the spec: the external network-identifier validator
(`cfx_address.utils.validate_network_id`) rejects out-of-range chain
identifiers (zero or not representable in 32 bits). -/
def validNetworkId (n : Nat) : Bool := 1 ≤ n && n ≤ 0xFFFFFFFF

/-- The external chain-identifier provider (`conflux_web3`): only its chain
identifier is consulted. -/
structure W3State where
  chainId : Nat
deriving DecidableEq, Repr

/-- The facade operation `Account.from_key`: with an explicit network identifier, validate it
and bind the account; with none, bind to an attached provider's chain
identifier, else return an unbound account. -/
def from_key (w3 : Option W3State) (privateKey : Nat) (networkId : Option Nat) :
    Except Err LocalAccount :=
  match networkId with
  | some nid =>
    if validNetworkId nid then .ok ⟨privateKey, some nid⟩
    else .error .invalidNetworkId
  | none =>
    match w3 with
    | some w => .ok ⟨privateKey, some w.chainId⟩
    | none => .ok ⟨privateKey, none⟩

/-- Modelled from the spec: `sign_transaction_dict`
(`cfx_account._utils.signing`, not among the provided sources) encodes the
unsigned payload, signs its digest with the chain-adjusted recovery id,
and re-encodes the fields with the signature appended. -/
def sign_transaction_dict (key : Nat) (t : Tx) : Nat × Nat × Nat × List Nat :=
  let digest := keccak (signingBytes t)
  let sig := ecdsaRawSign digest key
  let v := 35 + 2 * t.chainId + sig.1
  (v, sig.2.1, sig.2.2, signedBytes t v sig.2.1 sig.2.2)

/-- The hash field of every successful result is Keccak-256 of the raw bytes. -/
def hashMatchesRaw : Except Err SignedTransaction → Prop
  | .ok st => st.hash = keccak st.rawTransaction
  | .error _ => True

/-- The argument of `sign_transaction`: either not a field mapping at all,
or a mapping holding an optional explicit sender and the transaction
fields. -/
inductive TxInput where
  | notMapping
  | mapping (fromAddr : Option (List Nat)) (fields : Tx)
deriving DecidableEq, Repr

/-- The call dissoc(transaction_dict, sender-key): a copy of the mapping without the
sender field (the caller's mapping is untouched). -/
def dissocFrom : TxInput → TxInput
  | .mapping _ t => .mapping none t
  | .notMapping => .notMapping

/-- Run the signing pipeline on a sanitized mapping and package the
result: raw bytes, digest over the final bytes, and `v`, `r`, `s`. -/
def signDict (key : Nat) : TxInput → Except Err SignedTransaction
  | .notMapping => .error .typeError
  | .mapping _ t =>
    let vrs := sign_transaction_dict key t
    .ok { rawTransaction := vrs.2.2.2
          hash := keccak vrs.2.2.2
          r := vrs.2.1
          s := vrs.2.2.1
          v := vrs.1 }

/-- The facade operation `Account.sign_transaction`, with the caller's mapping passed through
explicitly: the returned first component is the caller's mapping as left
after the call (the source never mutates it; sanitization copies). -/
def sign_transaction_state (w3 : Option W3State) (transaction : TxInput) (privateKey : Nat) :
    TxInput × Except Err SignedTransaction :=
  match transaction with
  | .notMapping => (transaction, .error .typeError)
  | .mapping fromA t =>
    match from_key w3 privateKey none with
    | .error e => (transaction, .error e)
    | .ok account =>
      match fromA with
      | some a =>
        if a = account.hexAddress then
          (transaction, signDict privateKey (dissocFrom transaction))
        else (transaction, .error .senderMismatch)
      | none => (transaction, signDict privateKey (.mapping fromA t))

/-- The facade operation `Account.sign_transaction` as a function of its inputs. -/
def sign_transaction (w3 : Option W3State) (transaction : TxInput) (privateKey : Nat) :
    Except Err SignedTransaction :=
  (sign_transaction_state w3 transaction privateKey).2

/-- The facade operation `Account.recover_transaction`: decode the wire bytes, recompute the
unsigned-payload digest, recover the signer's identity, and return it in
chain-native hex form. -/
def recover_transaction (serialized : List Nat) : Except Err (List Nat) :=
  match decodeSignedBytes serialized with
  | none => .error .invalidEncoding
  | some d =>
    if d.v < 35 then .error .unsupportedType
    else
      let c := (d.v - 35) / 2
      let recid := d.v - 35 - 2 * c
      let t : Tx := ⟨d.nonce, d.gasPrice, d.gas, d.toAddr, d.value, d.data, c⟩
      match ecdsaRawRecover (keccak (signingBytes t)) (recid, d.r, d.s) with
      | none => .error .signatureRejected
      | some q => .ok (ethEoaToCfxHexAddr (pubToAddressBytes q))

/-! ### The lattice-primitive FFI wrapper (`cfx_account/_utils/account_ffi.py`) -/

/-- The `Pffi` instance state: the C declarations registered with the
foreign-function interface, the fixed scheme byte lengths, and the
filesystem path the native library is loaded from. -/
structure Pffi where
  cdefDecls : List String
  CRYPTO_PUBLICKEYBYTES : Nat
  CRYPTO_SECRETKEYBYTES : Nat
  CRYPTO_BYTES : Nat
  dlopenPath : String
deriving DecidableEq, Repr

/-- The constructor `Pffi.__init__`: the sole way to build a `Pffi` instance. -/
def Pffi.init : Pffi :=
  { cdefDecls :=
      ["int pqcrystals_dilithium2_ref_keypair(uint8_t* pk, uint8_t* sk);",
       "void pqcrystals_dilithium2_ref(uint8_t* sm, size_t* smlen, const uint8_t* m, size_t mlen, uint8_t* sk);",
       "int pqcrystals_dilithium2_ref_open(uint8_t* m, size_t* mlen, const uint8_t* sm, size_t smlen, const uint8_t* pk);",
       "void randombytes(uint8_t* out, size_t outlen);"]
    CRYPTO_PUBLICKEYBYTES := 1312
    CRYPTO_SECRETKEYBYTES := 2544
    CRYPTO_BYTES := 2420
    dlopenPath := "/home/shijing/cfx-account/cfx_account/quantum_sign/rust-dilithium2/depends/dilithium2/libpqcrystals_dilithium2_ref.so" }

/-- The documented final wire bytes of the known-vector transaction. -/
def demoRaw : List Nat :=
  [0xf8, 0x6a, 0x80, 0x86, 0xd5, 0x56, 0x98, 0x37, 0x24, 0x31,
   0x83, 0x1e, 0x84, 0x80, 0x94, 0xf0, 0x10, 0x9f, 0xc8, 0xdf,
   0x28, 0x30, 0x27, 0xb6, 0x28, 0x5c, 0xc8, 0x89, 0xf5, 0xaa,
   0x62, 0x4e, 0xac, 0x1f, 0x55, 0x84, 0x3b, 0x9a, 0xca, 0x00,
   0x80, 0x25, 0xa0, 0x09, 0xeb, 0xb6, 0xca, 0x05, 0x7a, 0x05,
   0x35, 0xd6, 0x18, 0x64, 0x62, 0xbc, 0x0b, 0x46, 0x5b, 0x56,
   0x1c, 0x94, 0xa2, 0x95, 0xbd, 0xb0, 0x62, 0x1f, 0xc1, 0x92,
   0x08, 0xab, 0x14, 0x9a, 0x9c, 0xa0, 0x44, 0x0f, 0xfd, 0x77,
   0x5c, 0xe9, 0x1a, 0x83, 0x3a, 0xb4, 0x10, 0x77, 0x72, 0x04,
   0xd5, 0x34, 0x1a, 0x6f, 0x9f, 0xa9, 0x12, 0x16, 0xa6, 0xf3,
   0xee, 0x2c, 0x05, 0x1f, 0xea, 0x6a, 0x04, 0x28]

instance {e a : Type} [DecidableEq e] [DecidableEq a] : DecidableEq (Except e a) := fun x y =>
  match x, y with
  | .error u, .error w => decidable_of_iff (u = w) (by simp)
  | .error _, .ok _ => .isFalse (by simp)
  | .ok _, .error _ => .isFalse (by simp)
  | .ok u, .ok w => decidable_of_iff (u = w) (by simp)

/-- The unfolding of `privToAddressBytes` (recorded before the definitions are
sealed below). -/
theorem privToAddressBytes_def (d : Nat) :
    privToAddressBytes d = pubToAddressBytes (basePointMul d) := rfl

theorem fromJacobian_bounds (p : Nat × Nat × Nat) :
    (fromJacobian p).1 < secpP ∧ (fromJacobian p).2 < secpP := by
  rcases p with ⟨x, y, z⟩
  rw [fromJacobian]
  split
  · constructor <;> decide
  · constructor <;> exact Nat.mod_lt _ (by decide)

theorem basePointMul_bounds (d : Nat) :
    (basePointMul d).1 < secpP ∧ (basePointMul d).2 < secpP := by
  rw [basePointMul]
  exact fromJacobian_bounds _

/-- Range facts about the signature components: the recovery id is 0 or 1
and both halves are 256-bit. -/
theorem ecdsaRawSign_bounds (m : List Nat) (d : Nat) :
    (ecdsaRawSign m d).1 ≤ 1 ∧ (ecdsaRawSign m d).2.1 < 2 ^ 256 ∧
      (ecdsaRawSign m d).2.2 < 2 ^ 256 := by
  have hP : secpP < 2 ^ 256 := by decide
  have hN : secpN < 2 ^ 256 := by decide
  have hbp := basePointMul_bounds (deterministicGenerateK m (beBytesPad 32 d))
  rcases hb : basePointMul (deterministicGenerateK m (beBytesPad 32 d)) with ⟨r0, y0⟩
  rw [hb] at hbp
  simp only [ecdsaRawSign, hb]
  refine ⟨?_, ?_, ?_⟩
  · have ha : y0 % 2 ≤ 1 := by omega
    have hbb : (if 2 * (invMod (deterministicGenerateK m (beBytesPad 32 d)) secpN *
        (beToNat m + r0 * d) % secpN) < secpN then (0 : Nat) else 1) ≤ 1 := by
      split <;> omega
    rcases Nat.le_one_iff_eq_zero_or_eq_one.mp ha with h | h <;>
      rcases Nat.le_one_iff_eq_zero_or_eq_one.mp hbb with h' | h' <;>
        rw [h, h'] <;> decide
  · exact lt_trans hbp.1 hP
  · have hs : invMod (deterministicGenerateK m (beBytesPad 32 d)) secpN *
        (beToNat m + r0 * d) % secpN < secpN := Nat.mod_lt _ (by decide)
    split <;> omega

/- The cryptographic leaves are sealed against elaborator unfolding: the
symbolic proofs below treat them as opaque functions, while kernel
evaluation of closed facts is unaffected. -/
attribute [irreducible] sha256 hmacSha256 deterministicGenerateK keccak
attribute [irreducible] powMod invMod jdouble jadd jmulAux jmul fromJacobian
attribute [irreducible] basePointMul ecdsaRawSign ecdsaRawRecover
attribute [irreducible] pubToAddressBytes privToAddressBytes

/-! ### Canonical-encoding round-trip lemmas -/

theorem beBytesAux_zero (fuel : Nat) : beBytesAux fuel 0 = [] := by
  cases fuel <;> simp [beBytesAux]

theorem beToNat_append_singleton (xs : List Nat) (b : Nat) :
    beToNat (xs ++ [b]) = beToNat xs * 256 + b := by
  simp [beToNat, List.foldl_append]

theorem beBytesAux_beToNat (fuel : Nat) :
    ∀ n, n < 256 ^ fuel → beToNat (beBytesAux fuel n) = n := by
  induction fuel with
  | zero => intro n h; interval_cases n; rfl
  | succ f ih =>
    intro n h
    by_cases h0 : n = 0
    · subst h0; simp [beBytesAux, beToNat]
    · have hdiv : n / 256 < 256 ^ f := by
        rw [Nat.div_lt_iff_lt_mul (by norm_num)]
        calc n < 256 ^ (f + 1) := h
        _ = 256 ^ f * 256 := by rw [Nat.pow_succ]
      simp only [beBytesAux, if_neg h0]
      rw [beToNat_append_singleton, ih _ hdiv]
      omega

theorem beBytesAux_ne_nil (fuel n : Nat) (h0 : 0 < n) :
    beBytesAux (fuel + 1) n ≠ [] := by
  have h0' : ¬n = 0 := by omega
  simp only [beBytesAux, if_neg h0']
  intro hnil
  have := congrArg List.length hnil
  simp at this

theorem getD_zero_of_ne_nil (xs : List Nat) (h : xs ≠ []) (d d' : Nat) :
    xs.getD 0 d = xs.getD 0 d' := by
  cases xs with
  | nil => exact absurd rfl h
  | cons a l => rfl

theorem beBytesAux_head_ne_zero (fuel : Nat) :
    ∀ n d, 0 < n → n < 256 ^ fuel → (beBytesAux fuel n).getD 0 d ≠ 0 := by
  induction fuel with
  | zero => intro n d h0 h; omega
  | succ f ih =>
    intro n d h0 h
    simp only [beBytesAux, if_neg (Nat.pos_iff_ne_zero.mp h0)]
    by_cases hs : n < 256
    · have : n / 256 = 0 := Nat.div_eq_of_lt hs
      rw [this, beBytesAux_zero]
      simp only [List.nil_append, List.getD_cons_zero]
      omega
    · have hpos : 0 < n / 256 := Nat.div_pos (le_of_not_lt hs) (by norm_num)
      have hlt : n / 256 < 256 ^ f := by
        rw [Nat.div_lt_iff_lt_mul (by norm_num)]
        calc n < 256 ^ (f + 1) := h
        _ = 256 ^ f * 256 := by rw [Nat.pow_succ]
      have hne : beBytesAux f (n / 256) ≠ [] := by
        intro hnil
        have := ih (n / 256) 0 hpos hlt
        rw [hnil] at this
        exact this rfl
      rw [List.getD_append _ _ _ _ (by
        cases hx : beBytesAux f (n / 256) with
        | nil => exact absurd hx hne
        | cons a l => simp)]
      exact ih (n / 256) d hpos hlt

theorem beBytesAux_length_le (fuel : Nat) :
    ∀ fuel' n, n < 256 ^ fuel' → fuel' ≤ fuel → (beBytesAux fuel n).length ≤ fuel' := by
  induction fuel with
  | zero => intro fuel' n h h'; simp [beBytesAux]
  | succ f ih =>
    intro fuel' n h h'
    by_cases h0 : n = 0
    · subst h0; simp [beBytesAux]
    · cases fuel' with
      | zero => simp at h; omega
      | succ fuel'' =>
        have hlt : n / 256 < 256 ^ fuel'' := by
          rw [Nat.div_lt_iff_lt_mul (by norm_num)]
          calc n < 256 ^ (fuel'' + 1) := h
          _ = 256 ^ fuel'' * 256 := by rw [Nat.pow_succ]
        simp only [beBytesAux, if_neg h0, List.length_append, List.length_singleton]
        have := ih fuel'' (n / 256) hlt (by omega)
        omega

theorem beBytes_beToNat (n : Nat) (h : n < 256 ^ 64) : beToNat (beBytes n) = n :=
  beBytesAux_beToNat 64 n h

theorem beBytes_length_le (fuel' n : Nat) (h : n < 256 ^ fuel') (h' : fuel' ≤ 64) :
    (beBytes n).length ≤ fuel' :=
  beBytesAux_length_le 64 fuel' n h h'

theorem parseItem_short (len : Nat) (b rest : List Nat) (hb : b.length = len)
    (h55 : len ≤ 55) (hcanon : ¬(len = 1 ∧ b.getD 0 0 < 0x80)) :
    parseItem (((0x80 + len) :: b) ++ rest) = some (b, rest) := by
  have h1 : ¬(0x80 + len < 0x80) := by omega
  have h2 : 0x80 + len ≤ 0xb7 := by omega
  have h3 : 0x80 + len - 0x80 = len := by omega
  have h4 : ¬((b ++ rest).length < len) := by
    simp [List.length_append]; omega
  simp only [List.cons_append, parseItem, h3, if_neg h1, if_pos h2, if_neg h4]
  rw [← hb, List.take_left, List.drop_left]
  simp only [hb, if_neg hcanon]

theorem parseItem_long (b rest : List Nat) (h55 : 55 < b.length)
    (hlen : b.length < 256 ^ 8) :
    parseItem ((((0x80 + 55 + (beBytes b.length).length) :: beBytes b.length) ++ b) ++ rest) =
      some (b, rest) := by
  have hlen64 : b.length < 256 ^ 64 :=
    lt_of_lt_of_le hlen (Nat.pow_le_pow_right (by norm_num) (by norm_num))
  have hlbne : beBytes b.length ≠ [] := beBytesAux_ne_nil 63 _ (by omega)
  have hlblen : (beBytes b.length).length ≤ 8 := beBytes_length_le 8 _ hlen (by norm_num)
  have hlbpos : 1 ≤ (beBytes b.length).length := List.length_pos.mpr hlbne
  have hhead : (beBytes b.length).getD 0 0 ≠ 0 :=
    beBytesAux_head_ne_zero 64 _ 0 (by omega) hlen64
  have hbeto : beToNat (beBytes b.length) = b.length := beBytes_beToNat _ hlen64
  have g1 : ¬(0x80 + 55 + (beBytes b.length).length < 0x80) := by omega
  have g2 : ¬(0x80 + 55 + (beBytes b.length).length ≤ 0xb7) := by omega
  have g3 : 0x80 + 55 + (beBytes b.length).length ≤ 0xbf := by omega
  have g4 : 0x80 + 55 + (beBytes b.length).length - 0xb7 = (beBytes b.length).length := by
    omega
  have g5 : ¬((beBytes b.length ++ (b ++ rest)).length < (beBytes b.length).length) := by
    simp [List.length_append]
  simp only [List.cons_append, List.append_assoc, parseItem, g4, if_neg g1, if_neg g2,
    if_pos g3, if_neg g5, List.take_left, List.drop_left, hbeto]
  have g6 : ¬((beBytes b.length).getD 0 0 = 0 ∨ b.length ≤ 55) := by
    push_neg
    exact ⟨hhead, by omega⟩
  have g7 : ¬((b ++ rest).length < b.length) := by
    simp [List.length_append]
  simp only [if_neg g6, if_neg g7]

theorem parseItem_encode (b rest : List Nat) (hlen : b.length < 256 ^ 8) :
    parseItem (rlpBytes b ++ rest) = some (b, rest) := by
  by_cases hc : b.length = 1 ∧ b.getD 0 0 < 0x80
  · obtain ⟨x, hx⟩ := List.length_eq_one.mp hc.1
    have hx' : x < 0x80 := by
      have := hc.2
      rw [hx] at this
      simpa using this
    rw [rlpBytes, if_pos hc, hx]
    simp [parseItem, hx']
  · rw [rlpBytes, if_neg hc, rlpHeader]
    by_cases h55 : b.length ≤ 55
    · rw [if_pos h55]
      exact parseItem_short b.length b rest rfl h55 hc
    · rw [if_neg h55]
      exact parseItem_long b rest (by omega) hlen

theorem pow_256_32_eq : (2 : Nat) ^ 256 = 256 ^ 32 := by norm_num

theorem parseNatItem_encode (n : Nat) (rest : List Nat) (h : n < 256 ^ 32) :
    parseNatItem (rlpNat n ++ rest) = some (n, rest) := by
  have h64 : n < 256 ^ 64 :=
    lt_of_lt_of_le h (Nat.pow_le_pow_right (by norm_num) (by norm_num))
  have hblen : (beBytes n).length ≤ 32 := beBytes_length_le 32 n h (by norm_num)
  have hlen8 : (beBytes n).length < 256 ^ 8 := lt_of_le_of_lt hblen (by norm_num)
  simp only [parseNatItem, rlpNat, parseItem_encode _ _ hlen8]
  by_cases h0 : n = 0
  · subst h0
    rw [show beBytes 0 = [] from beBytesAux_zero 64]
    simp [beToNat]
  · have hh : (beBytes n).getD 0 1 ≠ 0 := beBytesAux_head_ne_zero 64 n 1 (by omega) h64
    rw [if_neg hh, beBytes_beToNat n h64]

theorem parseListPayload_short (len : Nat) (payload : List Nat)
    (hp : payload.length = len) (h55 : len ≤ 55) :
    parseListPayload ((0xc0 + len) :: payload) = some payload := by
  have h1 : ¬(0xc0 + len < 0xc0) := by omega
  have h2 : 0xc0 + len ≤ 0xf7 := by omega
  have h3 : 0xc0 + len - 0xc0 = len := by omega
  simp only [parseListPayload, h3, if_neg h1, if_pos h2, hp, if_pos rfl, if_true]

theorem parseListPayload_long (payload : List Nat) (h55 : 55 < payload.length)
    (hlen : payload.length < 256 ^ 8) :
    parseListPayload
      (((0xc0 + 55 + (beBytes payload.length).length) :: beBytes payload.length) ++ payload) =
      some payload := by
  have hlen64 : payload.length < 256 ^ 64 :=
    lt_of_lt_of_le hlen (Nat.pow_le_pow_right (by norm_num) (by norm_num))
  have hlbne : beBytes payload.length ≠ [] := beBytesAux_ne_nil 63 _ (by omega)
  have hlblen : (beBytes payload.length).length ≤ 8 := beBytes_length_le 8 _ hlen (by norm_num)
  have hlbpos : 1 ≤ (beBytes payload.length).length := List.length_pos.mpr hlbne
  have hhead : (beBytes payload.length).getD 0 0 ≠ 0 :=
    beBytesAux_head_ne_zero 64 _ 0 (by omega) hlen64
  have hbeto : beToNat (beBytes payload.length) = payload.length := beBytes_beToNat _ hlen64
  have g1 : ¬(0xc0 + 55 + (beBytes payload.length).length < 0xc0) := by omega
  have g2 : ¬(0xc0 + 55 + (beBytes payload.length).length ≤ 0xf7) := by omega
  have g4 : 0xc0 + 55 + (beBytes payload.length).length - 0xf7 =
      (beBytes payload.length).length := by omega
  have g5 : ¬((beBytes payload.length ++ payload).length < (beBytes payload.length).length) := by
    simp [List.length_append]
  simp only [List.cons_append, parseListPayload, g4, if_neg g1, if_neg g2, if_neg g5,
    List.take_left, List.drop_left, hbeto]
  have g6 : ¬((beBytes payload.length).getD 0 0 = 0 ∨ payload.length ≤ 55) := by
    push_neg
    exact ⟨hhead, by omega⟩
  simp only [if_neg g6, if_pos rfl, if_true]

theorem parseListPayload_encode (payload : List Nat) (hlen : payload.length < 256 ^ 8) :
    parseListPayload (rlpList payload) = some payload := by
  rw [rlpList, rlpHeader]
  by_cases h55 : payload.length ≤ 55
  · rw [if_pos h55]
    exact parseListPayload_short payload.length payload rfl h55
  · rw [if_neg h55]
    exact parseListPayload_long payload (by omega) hlen

theorem rlpBytes_length_le (b : List Nat) (h : b.length < 256 ^ 8) :
    (rlpBytes b).length ≤ 9 + b.length := by
  rw [rlpBytes]
  split
  · omega
  · rw [rlpHeader]
    split
    · simp only [List.length_cons]
      omega
    · have := beBytes_length_le 8 b.length h (by norm_num)
      simp only [List.cons_append, List.length_cons, List.length_append]
      omega

theorem rlpNat_length_le (n : Nat) (h : n < 256 ^ 32) : (rlpNat n).length ≤ 41 := by
  have hb := beBytes_length_le 32 n h (by norm_num)
  have := rlpBytes_length_le (beBytes n) (lt_of_le_of_lt hb (by norm_num))
  rw [rlpNat]
  omega

/-- Decoding inverts encoding: the nine fields of a well-formed signed
transaction are recovered exactly from its wire bytes. -/
theorem decodeSignedBytes_encode (t : Tx) (v r s : Nat) (hT : TxValid t)
    (hv : v < 256 ^ 32) (hr : r < 256 ^ 32) (hs : s < 256 ^ 32) :
    decodeSignedBytes (signedBytes t v r s) =
      some ⟨t.nonce, t.gasPrice, t.gas, t.toAddr, t.value, t.data, v, r, s⟩ := by
  obtain ⟨hn, hgp, hg, hto, htob, hval, hdl, hdb, hc0, hc32⟩ := hT
  have conv : (2 : Nat) ^ 256 = 256 ^ 32 := pow_256_32_eq
  have hn' : t.nonce < 256 ^ 32 := by rw [← conv]; exact hn
  have hgp' : t.gasPrice < 256 ^ 32 := by rw [← conv]; exact hgp
  have hg' : t.gas < 256 ^ 32 := by rw [← conv]; exact hg
  have hval' : t.value < 256 ^ 32 := by rw [← conv]; exact hval
  have hto8 : t.toAddr.length < 256 ^ 8 := by
    rcases hto with h | h <;> rw [h] <;> norm_num
  have hdata8 : t.data.length < 256 ^ 8 := lt_of_lt_of_le hdl (by norm_num)
  have hP : txCoreItems t ++ rlpNat v ++ rlpNat r ++ rlpNat s =
      rlpNat t.nonce ++ (rlpNat t.gasPrice ++ (rlpNat t.gas ++ (rlpBytes t.toAddr ++
        (rlpNat t.value ++ (rlpBytes t.data ++ (rlpNat v ++ (rlpNat r ++
          (rlpNat s ++ [])))))))) := by
    simp [txCoreItems, List.append_assoc]
  have lN := rlpNat_length_le t.nonce hn'
  have lGP := rlpNat_length_le t.gasPrice hgp'
  have lG := rlpNat_length_le t.gas hg'
  have lV := rlpNat_length_le t.value hval'
  have lv := rlpNat_length_le v hv
  have lr := rlpNat_length_le r hr
  have ls := rlpNat_length_le s hs
  have lT := rlpBytes_length_le t.toAddr hto8
  have lD := rlpBytes_length_le t.data hdata8
  have e8 : (256 : Nat) ^ 8 = 18446744073709551616 := by norm_num
  have e32 : (2 : Nat) ^ 32 = 4294967296 := by norm_num
  have hPlen : (rlpNat t.nonce ++ (rlpNat t.gasPrice ++ (rlpNat t.gas ++ (rlpBytes t.toAddr ++
      (rlpNat t.value ++ (rlpBytes t.data ++ (rlpNat v ++ (rlpNat r ++
        (rlpNat s ++ [])))))))) : List Nat).length < 256 ^ 8 := by
    simp only [List.length_append, List.length_nil]
    rw [e8]
    rw [e32] at hdl
    have h20 : t.toAddr.length ≤ 20 := by rcases hto with h | h <;> simp [h]
    omega
  simp only [signedBytes]
  rw [hP]
  simp only [decodeSignedBytes, parseListPayload_encode _ hPlen,
    parseNatItem_encode _ _ hn', parseNatItem_encode _ _ hgp', parseNatItem_encode _ _ hg',
    parseItem_encode _ _ hto8, parseNatItem_encode _ _ hval', parseItem_encode _ _ hdata8,
    parseNatItem_encode _ _ hv, parseNatItem_encode _ _ hr, parseNatItem_encode _ _ hs]
  simp

/- With the round-trip lemmas in place, the byte-level encoders are also
sealed against elaborator unfolding. -/
attribute [irreducible] beBytesAux beBytes beToNat beBytesPad
attribute [irreducible] rlpHeader rlpBytes rlpNat rlpList txCoreItems
attribute [irreducible] signingBytes signedBytes
attribute [irreducible] parseItem parseNatItem parseListPayload decodeSignedBytes

/-! ### Sanity checks against published digests and the documented example -/

example : beToNat (sha256 []) =
    0xe3b0c44298fc1c149afbf4c8996fb92427ae41e4649b934ca495991b7852b855 := by
  decide!

example : beToNat (keccak []) =
    0xc5d2460186f7233c927e7db2dcc703c0e500b653ca82273b7bfad8045d85a470 := by
  decide!

example : decodeSignedBytes demoRaw =
    some ⟨demoTx.nonce, demoTx.gasPrice, demoTx.gas, demoTx.toAddr, demoTx.value,
          demoTx.data, 37,
          4487286261793418179817841024889747115779324305375823110249149479905075174044,
          30785525769477805655994251009256770582792548537338581640010273753578382951464⟩ := by
  decide!

/-- The caller's mapping is returned unchanged by the signing procedure. -/
theorem sign_transaction_state_fst (w3 : Option W3State) (inp : TxInput) (k : Nat) :
    (sign_transaction_state w3 inp k).1 = inp := by
  cases inp with
  | notMapping => rfl
  | mapping fromA t =>
    cases w3 <;> cases fromA <;>
      simp only [sign_transaction_state, from_key] <;> split <;> rfl


/-! ### The claims -/

/-- C1. On the known-vector input (nonce 0, chainId 1, the documented
recipient, value 1000000000, gas 2000000, gasPrice 234567897654321, the
documented key), `sign_transaction` returns v = 37 and the documented
`r`, `s` and raw bytes, and `recover_transaction` on those raw bytes
returns the address derived from that key. -/
theorem sign_known_vector :
    sign_transaction none (.mapping none demoTx) demoKey =
      .ok { rawTransaction := demoRaw
            hash := keccak demoRaw
            r := 4487286261793418179817841024889747115779324305375823110249149479905075174044
            s := 30785525769477805655994251009256770582792548537338581640010273753578382951464
            v := 37 } ∧
    recover_transaction demoRaw =
      .ok (ethEoaToCfxHexAddr (privToAddressBytes demoKey)) := by
  constructor
  · decide!
  · decide!

example : ethEoaToCfxHexAddr (privToAddressBytes demoKey) =
    [0x1c, 0x75, 0x36, 0xe3, 0x60, 0x5d, 0x9c, 0x16, 0xa7, 0xa3,
     0xd7, 0xb1, 0x89, 0x8e, 0x52, 0x93, 0x96, 0xa6, 0x5c, 0x23] := by decide!

/-- C2. For every valid transaction and key for which the classical engine
recovers the signing key's public point from its own signature (the
engine's recovery-correctness property), recovering from the raw bytes
produced by signing returns the chain-native hex address derived from the
key. -/
theorem sign_recover_roundtrip (w3 : Option W3State) (t : Tx) (k : Nat)
    (hT : TxValid t)
    (hE : ecdsaRawRecover (keccak (signingBytes t))
        (ecdsaRawSign (keccak (signingBytes t)) k) = some (basePointMul k))
    (st : SignedTransaction)
    (hsign : sign_transaction w3 (.mapping none t) k = .ok st) :
    recover_transaction st.rawTransaction =
      .ok (ethEoaToCfxHexAddr (privToAddressBytes k)) := by
  have hx : sign_transaction w3 (.mapping none t) k = signDict k (.mapping none t) := by
    cases w3 <;> rfl
  rcases hsig : ecdsaRawSign (keccak (signingBytes t)) k with ⟨recid, r, s⟩
  have hbounds := ecdsaRawSign_bounds (keccak (signingBytes t)) k
  rw [hsig] at hbounds hE
  dsimp only at hbounds
  obtain ⟨hrecid, hr, hs⟩ := hbounds
  have hsd : signDict k (.mapping none t) = .ok
      { rawTransaction := signedBytes t (35 + 2 * t.chainId + recid) r s
        hash := keccak (signedBytes t (35 + 2 * t.chainId + recid) r s)
        r := r
        s := s
        v := 35 + 2 * t.chainId + recid } := by
    simp only [signDict, sign_transaction_dict, hsig]
  rw [hx, hsd] at hsign
  injection hsign with hh
  subst hh
  have hT2 := hT
  obtain ⟨hn, hgp, hg, hto, htob, hval, hdl, hdb, hc0, hc32⟩ := hT2
  have e256 : (256 : Nat) ^ 32 =
      115792089237316195423570985008687907853269984665640564039457584007913129639936 := by
    norm_num
  have e32 : (2 : Nat) ^ 32 = 4294967296 := by norm_num
  have hv32 : 35 + 2 * t.chainId + recid < 256 ^ 32 := by
    rw [e256]
    rw [e32] at hc32
    omega
  have hr32 : r < 256 ^ 32 := by rw [← pow_256_32_eq]; exact hr
  have hs32 : s < 256 ^ 32 := by rw [← pow_256_32_eq]; exact hs
  dsimp only
  simp only [recover_transaction,
    decodeSignedBytes_encode t (35 + 2 * t.chainId + recid) r s hT hv32 hr32 hs32]
  rw [if_neg (by omega : ¬35 + 2 * t.chainId + recid < 35)]
  have hrec : 35 + 2 * t.chainId + recid - 35 -
      2 * ((35 + 2 * t.chainId + recid - 35) / 2) = recid := by omega
  have hcid : (35 + 2 * t.chainId + recid - 35) / 2 = t.chainId := by omega
  rw [hrec, hcid]
  have hteta : (⟨t.nonce, t.gasPrice, t.gas, t.toAddr, t.value, t.data, t.chainId⟩ : Tx) = t :=
    rfl
  rw [hteta]
  simp only [hE, privToAddressBytes_def]

/-- Closed instance of C2 at the known vector, with the engine's recovery
property discharged by computation. -/
theorem sign_recover_roundtrip_witness :
    recover_transaction demoRaw = .ok (ethEoaToCfxHexAddr (privToAddressBytes demoKey)) :=
  sign_recover_roundtrip none demoTx demoKey (by decide) (by decide!)
    { rawTransaction := demoRaw
      hash := keccak demoRaw
      r := 4487286261793418179817841024889747115779324305375823110249149479905075174044
      s := 30785525769477805655994251009256770582792548537338581640010273753578382951464
      v := 37 }
    (by decide!)

/-- C3. An explicit sender field not matching the key's address always
fails with the sender-mismatch error; a matching one succeeds with the
same result as omitting the field. -/
theorem from_field_validation (w3 : Option W3State) (t : Tx) (k : Nat) (a : List Nat) :
    (a ≠ ethEoaToCfxHexAddr (privToAddressBytes k) →
      sign_transaction w3 (.mapping (some a) t) k = .error .senderMismatch) ∧
    (a = ethEoaToCfxHexAddr (privToAddressBytes k) →
      sign_transaction w3 (.mapping (some a) t) k =
        sign_transaction w3 (.mapping none t) k) := by
  constructor <;> intro h <;>
    cases w3 <;>
      simp [sign_transaction, sign_transaction_state, from_key,
            LocalAccount.hexAddress, h, dissocFrom]

/-- Closed instance of C3: a mismatching sender errors, a matching sender
signs exactly as when the field is omitted. -/
theorem from_field_validation_witness :
    sign_transaction none (.mapping (some []) demoTx) demoKey = .error .senderMismatch ∧
    sign_transaction none
        (.mapping (some (ethEoaToCfxHexAddr (privToAddressBytes demoKey))) demoTx) demoKey =
      sign_transaction none (.mapping none demoTx) demoKey :=
  ⟨(from_field_validation none demoTx demoKey []).1 (by decide!),
   (from_field_validation none demoTx demoKey
      (ethEoaToCfxHexAddr (privToAddressBytes demoKey))).2 rfl⟩

/-- C4. Signing is deterministic: a second call on the state left by the
first call returns a bit-identical result (same raw bytes, hash, and
`v`, `r`, `s`). -/
theorem sign_deterministic (w3 : Option W3State) (inp : TxInput) (k : Nat) :
    (sign_transaction_state w3 (sign_transaction_state w3 inp k).1 k).2 =
      (sign_transaction_state w3 inp k).2 := by
  rw [sign_transaction_state_fst]

/-- Every result of the sanitized signing pipeline hashes its own raw
bytes. -/
theorem hashMatchesRaw_signDict (k : Nat) (inp : TxInput) :
    hashMatchesRaw (signDict k inp) := by
  cases inp with
  | notMapping => trivial
  | mapping fromA t =>
    rcases hsig : sign_transaction_dict k t with ⟨v, r, s, raw⟩
    simp only [signDict, hsig]
    exact rfl

/-- C5. Whenever signing succeeds, the result's hash field is the digest
of exactly the result's raw transaction bytes. -/
theorem hash_over_final_bytes (w3 : Option W3State) (inp : TxInput) (k : Nat) :
    hashMatchesRaw (sign_transaction w3 inp k) := by
  cases inp with
  | notMapping => trivial
  | mapping fromA t =>
    cases w3 with
    | none =>
      cases fromA with
      | none =>
        simp only [sign_transaction, sign_transaction_state, from_key]
        exact hashMatchesRaw_signDict k _
      | some a =>
        simp only [sign_transaction, sign_transaction_state, from_key]
        split
        · show hashMatchesRaw (signDict k (dissocFrom (TxInput.mapping (some a) t)))
          exact hashMatchesRaw_signDict k _
        · trivial
    | some w =>
      cases fromA with
      | none =>
        simp only [sign_transaction, sign_transaction_state, from_key]
        exact hashMatchesRaw_signDict k _
      | some a =>
        simp only [sign_transaction, sign_transaction_state, from_key]
        split
        · show hashMatchesRaw (signDict k (dissocFrom (TxInput.mapping (some a) t)))
          exact hashMatchesRaw_signDict k _
        · trivial

/-- C6. The signing procedure has no side effect on its input: the
caller's mapping is unchanged whether the call succeeds or fails (the
sender field is stripped from a copy only). -/
theorem sign_no_mutation (w3 : Option W3State) (inp : TxInput) (k : Nat) :
    (sign_transaction_state w3 inp k).1 = inp :=
  sign_transaction_state_fst w3 inp k

/-- C7. `from_key` with an explicit network identifier validates it and
binds the account to it; with none and a provider attached it binds to
the provider's chain identifier; with neither it returns an unbound
account. -/
theorem from_key_binding (w3 : Option W3State) (k nid : Nat) (w : W3State) :
    from_key w3 k (some nid) =
      (if validNetworkId nid then .ok ⟨k, some nid⟩ else .error .invalidNetworkId) ∧
    from_key (some w) k none = .ok ⟨k, some w.chainId⟩ ∧
    from_key none k none = .ok ⟨k, none⟩ :=
  ⟨rfl, rfl, rfl⟩

/-- C8. A non-mapping argument always fails with a type error, for every
key and provider state. -/
theorem non_mapping_type_error (w3 : Option W3State) (k : Nat) :
    sign_transaction w3 .notMapping k = .error .typeError := rfl

/-- C9. The signing result does not depend on the attached provider: any
two provider states produce identical results. -/
theorem sign_independent_of_w3 (w3 w3' : Option W3State) (inp : TxInput) (k : Nat) :
    sign_transaction w3 inp k = sign_transaction w3' inp k := by
  cases inp with
  | notMapping => rfl
  | mapping fromA t => cases w3 <;> cases w3' <;> cases fromA <;> rfl

/-- C10. The constructed `Pffi` instance carries the fixed Dilithium2
byte lengths and loads the primitive from the single hardcoded path. -/
theorem pffi_constants :
    Pffi.init.CRYPTO_PUBLICKEYBYTES = 1312 ∧
    Pffi.init.CRYPTO_SECRETKEYBYTES = 2544 ∧
    Pffi.init.CRYPTO_BYTES = 2420 ∧
    Pffi.init.dlopenPath =
      "/home/shijing/cfx-account/cfx_account/quantum_sign/rust-dilithium2/depends/dilithium2/libpqcrystals_dilithium2_ref.so" :=
  ⟨rfl, rfl, rfl, rfl⟩
